import Mathlib

/-!
Verification of the CaseInventory consolidation pipeline
(`PythonScripts/GenerateMasterCSV.py`, `PythonScripts/FormatCSV.py`).

Dates are modelled as integers (day ordinals); `datetime`/`Timestamp`
comparison is a total order, so only the order structure matters.
A missing value (`None` / `NaN` / `NaT` / `pd.NA`) is `Option.none`.
-/

namespace CaseInventory

/-- Dates as day ordinals; only their linear order is used by the code. -/
abbrev Date := Int

/-! ### Storage-period resolver (`_transform_data` lines 257-272,
`save_consolidated_report` lines 516-523)

Both sites apply the same per-row rule:
`x if pd.notnull(x) and first_day_prev_month <= x <= last_day_prev_month
 else first_day_prev_month` (resp. `last_day_prev_month`). -/

/-- `row['Arrived @ Warehouse'] if pd.notnull(...) and F <= x <= L else F`. -/
def clampStart (F L : Date) (x : Option Date) : Date :=
  match x with
  | some a => if F ≤ a ∧ a ≤ L then a else F
  | none => F

/-- `row['Scheduled Date'] if pd.notnull(...) and F <= x <= L else L`. -/
def clampEnd (F L : Date) (x : Option Date) : Date :=
  match x with
  | some a => if F ≤ a ∧ a ≤ L then a else L
  | none => L

/-- One inventory record restricted to the four date fields the resolver
reads and writes; all other fields are untouched by it. -/
structure InvRow where
  arrived : Option Date
  scheduled : Option Date
  storageStarts : Option Date
  storageEnds : Option Date
deriving DecidableEq, Repr

/-- The storage-period resolution applied to one record
(the body of the two `df.apply(..., axis=1)` / `.apply` calls). -/
def resolveRow (F L : Date) (r : InvRow) : InvRow :=
  { r with
    storageStarts := some (clampStart F L r.arrived)
    storageEnds := some (clampEnd F L r.scheduled) }

/-- The resolver applied to a whole table (row-wise, as `DataFrame.apply`). -/
def resolveTable (F L : Date) (rows : List InvRow) : List InvRow :=
  rows.map (resolveRow F L)

/-- `=({end}-{start})+1`, the `# Days In Storage` formula injected into the
output workbook (`save_consolidated_report` line 562). -/
def daysInStorageFormula (e s : Date) : Int :=
  (e - s) + 1

/-! ### Temporal filter (`_apply_date_filters` lines 318-327)

`df = df[(df['Arrived @ Warehouse'] > lower_cutoff) &
         (df['Arrived @ Warehouse'] < upper_cutoff)]`.
A pandas comparison whose operand is `NaT` yields `False`, so the mask of
a row with a missing date is `False` and the row is removed. -/

/-- Mask value of one row for the `Arrived @ Warehouse` filter:
`(x > lower) & (x < upper)` with missing comparisons `False`. -/
def arrivedKeep (lower upper : Date) (x : Option Date) : Bool :=
  match x with
  | some a => decide (lower < a) && decide (a < upper)
  | none => false

/-- The filter applied to a table (`df[mask]`). -/
def filterArrived (lower upper : Date) (rows : List InvRow) : List InvRow :=
  rows.filter (fun r => arrivedKeep lower upper r.arrived)

/-! ### Header normalization (`_process_headers` lines 170-209)

Raw header cells are nullable strings; python `str(x).strip()` on a string
is modelled by `pyStrip`, `.lower()` by `pyLower`, and `t in s` by
`containsSub t s`. -/

/-- ASCII whitespace, as stripped by python `str.strip()`. -/
def wsChar (c : Char) : Bool :=
  c = ' ' || c = '\t' || c = '\n' || c = '\r'

/-- Python `s.strip()`. -/
def pyStrip (s : String) : String :=
  ⟨(s.data.dropWhile wsChar).reverse.dropWhile wsChar |>.reverse⟩

/-- Python `s.lower()`. -/
def pyLower (s : String) : String :=
  ⟨s.data.map Char.toLower⟩

/-- Whether the first list starts the second (over characters). -/
def startsList : List Char → List Char → Bool
  | [], _ => true
  | _ :: _, [] => false
  | a :: as, b :: bs => a == b && startsList as bs

/-- Whether `n` occurs contiguously inside `l`. -/
def hasSub (n : List Char) : List Char → Bool
  | [] => startsList n []
  | h :: t => startsList n (h :: t) || hasSub n t

/-- Python `needle in hay` on strings. -/
def containsSub (needle hay : String) : Bool :=
  hasSub needle.data hay.data

/-- `str(subheader).strip().lower() if subheader else ""` (an absent or
empty subheader yields the empty string either way). -/
def subheaderStr : Option String → String
  | some t => pyLower (pyStrip t)
  | none => ""

/-- `any(t in subheader_str for t in ['time', 'tme', 'tim'])`. -/
def timeMatch (sub : Option String) : Bool :=
  ["time", "tme", "tim"].any (fun t => containsSub t (subheaderStr sub))

/-- `'date' in subheader_str`. -/
def dateMatch (sub : Option String) : Bool :=
  containsSub "date" (subheaderStr sub)

/-- The `if header == 'Scheduled APPT'` date/time split (lines 193-198),
applied to the candidate from either branch. -/
def apptSplit (h : String) (sub : Option String) : String :=
  if h = "Scheduled APPT" then
    if dateMatch sub then "Scheduled Date"
    else if timeMatch sub then "Scheduled Time"
    else h
  else h

/-- Candidate name at one position, before deduplication (lines 181-198):
returns the candidate and the updated `prev_main_header`. -/
def candidateName (prev : Option String) (i : Nat) (hdr sub : Option String) :
    String × Option String :=
  match hdr with
  | none =>
    let name :=
      if prev == some "Scheduled APPT" && timeMatch sub then "Scheduled Time"
      else "Unnamed_" ++ Nat.repr i
    (apptSplit name sub, prev)
  | some h0 =>
    let h := pyStrip h0
    (apptSplit h sub, some h)

/-- `seen_headers` lookup (python dict membership / access). -/
def lookupSeen (k : String) : List (String × Nat) → Option Nat
  | [] => none
  | p :: rest => if p.1 = k then some p.2 else lookupSeen k rest

/-- `seen_headers[k] = v` for an existing key. -/
def updateSeen (k : String) (v : Nat) (seen : List (String × Nat)) :
    List (String × Nat) :=
  seen.map (fun p => if p.1 = k then (k, v) else p)

/-- Duplicate handling (lines 201-205): a repeated name gets `_<n>` with the
incremented per-name counter; the suffixed form is not recorded. -/
def dedupStep (seen : List (String × Nat)) (cand : String) :
    String × List (String × Nat) :=
  match lookupSeen cand seen with
  | some c => (cand ++ "_" ++ Nat.repr (c + 1), updateSeen cand (c + 1) seen)
  | none => (cand, seen ++ [(cand, 0)])

/-- The position scan of `_process_headers`, carrying the position index,
`prev_main_header` and `seen_headers`. -/
def headersGo : List (Option String × Option String) → Nat → Option String →
    List (String × Nat) → List String
  | [], _, _, _ => []
  | (h, s) :: rest, i, prev, seen =>
    let c := candidateName prev i h s
    let d := dedupStep seen c.1
    d.1 :: headersGo rest (i + 1) c.2 d.2

/-- `_process_headers`: zip the two header rows and scan left to right. -/
def processHeaders (hdrs subs : List (Option String)) : List String :=
  headersGo (hdrs.zip subs) 0 none []

/-- The candidate sequence alone (same scan without deduplication). -/
def candGo : List (Option String × Option String) → Nat → Option String →
    List String
  | [], _, _ => []
  | (h, s) :: rest, i, prev =>
    let c := candidateName prev i h s
    c.1 :: candGo rest (i + 1) c.2

/-- Deduplication alone, folded over a candidate sequence. -/
def dedupAll (seen : List (String × Nat)) : List String → List String
  | [] => []
  | c :: rest =>
    let d := dedupStep seen c
    d.1 :: dedupAll d.2 rest

/-! ### Data frames and consolidation (`_consolidate_dataframes` lines 420-451)

A cell is a nullable scalar; `Val.str` stands for any non-date scalar
(`pd.to_datetime(..., errors='coerce')` turns it into a missing value,
which is what the date coercion below does). -/

/-- A scalar cell value. -/
inductive Val where
  | date (d : Date)
  | str (s : String)
deriving DecidableEq, Repr

/-- A pandas `DataFrame`: named columns and position-aligned rows of
nullable cells. -/
structure DFrame where
  cols : List String
  rows : List (List (Option Val))
deriving DecidableEq, Repr

/-- Every row has one cell per column. -/
def DFrame.WF (df : DFrame) : Prop :=
  ∀ r ∈ df.rows, r.length = df.cols.length

/-- `COLUMN_ORDER` (lines 28-38). -/
def COLUMN_ORDER : List String :=
  ["Destination Store", "Attention", "PO FROM LOBLAW #",
   "Shipper Order #", "Line Up #", "Case #", "Case Model #", "Serial #",
   "Estimated Ship Date", "Arrived @ Warehouse", "Storage Starts",
   "Storage Ends", "Scheduled Date", "Scheduled Time", "Warehouse Location",
   "Trailer or Warehouse", "Original order #", "Original Trailer #",
   "Touched / not Touched", "Date Stripped", "Damage Y / N",
   "Delivery Order #", "Delivery Trailer #", "# Days In Storage",
   "Square Footage of Case", "Storage Charge", "Extended Price",
   "Department", "LH Gable", "RH Gable", "No Gable"]

/-- `DATE_COLUMNS` (lines 41-44). -/
def DATE_COLUMNS : List String :=
  ["Estimated Ship Date", "Arrived @ Warehouse", "Storage Starts",
   "Storage Ends", "Scheduled Date", "Date Stripped"]

/-- First-occurrence deduplication of a name list (python's column `set`
union; only membership is observable downstream). -/
def dedupList : List String → List String
  | [] => []
  | c :: rest => c :: (dedupList rest).filter (fun x => decide (x ≠ c))

/-- Index of the first column with a given name. -/
def firstIdx : List String → String → Option Nat
  | [], _ => none
  | x :: rest, c => if x = c then some 0 else (firstIdx rest c).map (· + 1)

/-- Union of all column names (`all_columns`, lines 423-425). -/
def unionCols (dfs : List DFrame) : List String :=
  dedupList ((dfs.map DFrame.cols).flatten)

/-- `for col in missing_cols: df[col] = pd.NA` (lines 430-432). -/
def widen (df : DFrame) (u : List String) : DFrame :=
  let missing := u.filter (fun c => decide (c ∉ df.cols))
  { cols := df.cols ++ missing,
    rows := df.rows.map (fun r => r ++ List.replicate missing.length none) }

/-- Column `j` holds at least one non-missing value. -/
def colKeep (df : DFrame) (j : Nat) : Bool :=
  df.rows.any (fun r => (r.getD j none).isSome)

/-- Indices of columns surviving `dropna(axis=1, how='all')`. -/
def keptIdxs (df : DFrame) : List Nat :=
  (List.range df.cols.length).filter (colKeep df)

/-- `df.dropna(axis=1, how='all')` (line 434). -/
def dropAllNa (df : DFrame) : DFrame :=
  { cols := (keptIdxs df).map (fun j => df.cols.getD j ""),
    rows := df.rows.map (fun r => (keptIdxs df).map (fun j => r.getD j none)) }

/-- The concatenated column list: union in order of first appearance. -/
def concatCols (dfs : List DFrame) : List String :=
  dedupList ((dfs.map DFrame.cols).flatten)

/-- `pd.concat(dfs_reindexed, ignore_index=True)` (line 438): union the
columns in order of first appearance, align each row by column name. -/
def concatD (dfs : List DFrame) : DFrame :=
  { cols := concatCols dfs,
    rows := (dfs.map (fun df => df.rows.map (fun r =>
      (concatCols dfs).map (fun c =>
        match firstIdx df.cols c with
        | some j => r.getD j none
        | none => none)))).flatten }

/-- `col.split('_')[0] if '_' in col else col` (line 441). -/
def renameCol (c : String) : String :=
  if c.data.contains '_' then ⟨c.data.takeWhile (fun a => decide (a ≠ '_'))⟩
  else c

/-- The column-name cleanup over the concatenated frame (lines 441-442). -/
def renameStage (df : DFrame) : DFrame :=
  { df with cols := df.cols.map renameCol }

/-- `pd.to_datetime(cell, errors='coerce')`: a date survives, any other
scalar becomes missing. -/
def coerceDateCell : Option Val → Option Val
  | some (Val.date d) => some (Val.date d)
  | _ => none

/-- `str(cell)` as used by `astype(str)`; the rendering of non-string
scalars is opaque, missing renders as `"nan"`. -/
def pyStrOfCell : Option Val → String
  | none => "nan"
  | some (Val.date d) => Int.repr d
  | some (Val.str s) => s

/-- `str.replace(r'\.\d+$', '', regex=True)`: drop one trailing dot-digits
run. -/
def stripFracTail (l : List Char) : List Char :=
  let rev := l.reverse
  let digs := rev.takeWhile Char.isDigit
  let rest := rev.dropWhile Char.isDigit
  match rest with
  | '.' :: more => if digs.isEmpty then l else more.reverse
  | _ => l

/-- `x[:5] if len(x) >= 8 and x.count(':') >= 2 else x`. -/
def hhmm (s : String) : String :=
  if 8 ≤ s.data.length ∧ 2 ≤ (s.data.filter (fun c => decide (c = ':'))).length
  then ⟨s.data.take 5⟩ else s

/-- The `Scheduled Time` cleanup pipeline (lines 370-379). -/
def cleanTime (v : Option Val) : Option Val :=
  let s1 : String := ⟨stripFracTail (pyStrOfCell v).data⟩
  let s2 := hhmm s1
  some (Val.str ⟨(s2.data.map Char.toUpper).filter (fun c => decide (c ≠ ' '))⟩)

/-- One cell of `format_date_columns` (lines 361-381). -/
def formatCell (c : String) (v : Option Val) : Option Val :=
  if c ∈ DATE_COLUMNS then coerceDateCell v
  else if c = "Scheduled Time" then cleanTime v
  else v

/-- `format_date_columns`: per-column value formatting, column set kept. -/
def formatDateColumns (df : DFrame) : DFrame :=
  { df with rows := df.rows.map (fun r => List.zipWith formatCell df.cols r) }

/-- Indices selected by `df[order]`; a duplicated label selects every
matching column (pandas semantics). -/
def selectIdxs (df : DFrame) (order : List String) : List Nat :=
  (order.map (fun c => (List.range df.cols.length).filter
    (fun j => decide (df.cols.getD j "" = c)))).flatten

/-- `df[order]`. -/
def selectCols (df : DFrame) (order : List String) : DFrame :=
  { cols := (selectIdxs df order).map (fun j => df.cols.getD j ""),
    rows := df.rows.map (fun r => (selectIdxs df order).map (fun j => r.getD j none)) }

/-- The per-file widen-then-prune stage (lines 428-435). -/
def prunedFrames (dfs : List DFrame) : List DFrame :=
  dfs.map (fun df => dropAllNa (widen df (unionCols dfs)))

/-- Concatenation, column-name cleanup and value formatting (lines 438-445). -/
def fmtStage (dfs : List DFrame) : DFrame :=
  formatDateColumns (renameStage (concatD (prunedFrames dfs)))

/-- `_consolidate_dataframes` (lines 420-451). -/
def consolidateDataframes (dfs : List DFrame) : DFrame :=
  selectCols (fmtStage dfs)
    (COLUMN_ORDER.filter (fun c => decide (c ∈ (fmtStage dfs).cols)))

/-! ### Run orchestration (`process_folders` lines 383-418,
`save_consolidated_report` lines 504-568, `main` lines 585-620) -/

/-- Errors the run can raise: the fatal no-data `ValueError`, and a pandas
`KeyError` from dereferencing a missing column. -/
inductive RunErr where
  | noData
  | keyError (c : String)
deriving DecidableEq, Repr

/-- The per-file results reaching the accumulation loop of
`process_folders`; a frame is kept iff `df is not None and not df.empty`
(line 408; pandas `empty` is true when either axis has length zero). -/
def usableFrames (results : List (Option DFrame)) : List DFrame :=
  (results.filterMap id).filter
    (fun df => !(df.rows.isEmpty || df.cols.isEmpty))

/-- `process_folders` (lines 383-418): raise the fatal no-data error iff
nothing was usable, else consolidate. -/
def processFolders (results : List (Option DFrame)) : Except RunErr DFrame :=
  if usableFrames results = [] then .error .noData
  else .ok (consolidateDataframes (usableFrames results))

/-- Read a column's cells as an `Option Date` (after date coercion a cell
is a date or missing). -/
def asDate : Option Val → Option Date
  | some (Val.date d) => some d
  | _ => none

/-- The values of the first column labelled `c`. -/
def getColVals (df : DFrame) (c : String) : List (Option Val) :=
  match firstIdx df.cols c with
  | some j => df.rows.map (fun r => r.getD j none)
  | none => df.rows.map (fun _ => none)

/-- `df[c] = vals`: overwrite every column labelled `c`, else append a new
column at the end. -/
def setCol (df : DFrame) (c : String) (vals : List (Option Val)) : DFrame :=
  if c ∈ df.cols then
    { cols := df.cols,
      rows := (df.rows.zip vals).map (fun rv =>
        (List.range df.cols.length).map (fun j =>
          if df.cols.getD j "" = c then rv.2 else rv.1.getD j none)) }
  else
    { cols := df.cols ++ [c],
      rows := (df.rows.zip vals).map (fun rv => rv.1 ++ [rv.2]) }

/-- `columns_to_hide` (line 538). -/
def columnsToHide : List String :=
  ["Estimated Ship Date", "Trailer or Warehouse", "Original order #",
   "Original Trailer #", "Touched / not Touched", "Date Stripped",
   "Delivery Order #", "Department", "LH Gable", "RH Gable", "No Gable"]

/-- `df.drop(columns=[...], errors='ignore')` (line 539). -/
def dropColumns (df : DFrame) (hide : List String) : DFrame :=
  { cols := (df.cols.filter (fun c => decide (c ∉ hide))),
    rows := df.rows.map (fun r =>
      ((List.range df.cols.length).filter
        (fun j => decide (df.cols.getD j "" ∉ hide))).map
        (fun j => r.getD j none)) }

/-- `save_consolidated_report` up to the workbook write (lines 504-543):
`df['Arrived @ Warehouse']` and `df['Scheduled Date']` are read (a missing
column raises `KeyError`), both are date-coerced, `Storage Starts` and
`Storage Ends` are recomputed from the reference window `[F, L]`, and the
processing-only columns are dropped. -/
def saveBeforeWrite (F L : Date) (df : DFrame) : Except RunErr DFrame :=
  if "Arrived @ Warehouse" ∉ df.cols then
    .error (.keyError "Arrived @ Warehouse")
  else if "Scheduled Date" ∉ df.cols then
    .error (.keyError "Scheduled Date")
  else
    let d1 := setCol df "Arrived @ Warehouse"
      ((getColVals df "Arrived @ Warehouse").map coerceDateCell)
    let d2 := setCol d1 "Scheduled Date"
      ((getColVals d1 "Scheduled Date").map coerceDateCell)
    let d3 := setCol d2 "Storage Starts"
      ((getColVals d2 "Arrived @ Warehouse").map
        (fun v => some (Val.date (clampStart F L (asDate v)))))
    let d4 := setCol d3 "Storage Ends"
      ((getColVals d3 "Scheduled Date").map
        (fun v => some (Val.date (clampEnd F L (asDate v)))))
    .ok (dropColumns d4 columnsToHide)

/-- The six columns the formula-injection loop dereferences
(lines 555-560). -/
def formulaCols : List String :=
  ["Storage Starts", "Storage Ends", "# Days In Storage", "Storage Charge",
   "Square Footage of Case", "Extended Price"]

/-- The formula-injection loop (lines 554-563): it runs once per data row,
so with at least one row a missing formula column raises `KeyError`. -/
def saveInjectFormulas (df : DFrame) : Except RunErr Unit :=
  if df.rows.isEmpty then .ok ()
  else
    match formulaCols.find? (fun c => decide (c ∉ df.cols)) with
    | some c => .error (.keyError c)
    | none => .ok ()

/-- `main` (lines 585-620): every raised error is caught and mapped to exit
code 1, otherwise 0. The boolean records whether the output workbook was
written; the write happens between the two save phases (lines 542-543), so
a formula-injection failure leaves a written file while earlier failures
leave none. -/
def mainRun (F L : Date) (results : List (Option DFrame)) : Nat × Bool :=
  match processFolders results with
  | .error _ => (1, false)
  | .ok df =>
    match saveBeforeWrite F L df with
    | .error _ => (1, false)
    | .ok out =>
      match saveInjectFormulas out with
      | .error _ => (1, true)
      | .ok _ => (0, true)

/-! ### Sheet titles (`FormatCSV.py` lines 9-42)

`sanitize_sheet_title` cleans a store name and `make_unique_title`
disambiguates it against the already-assigned workbook sheet names. -/

/-- `INVALID_SHEET_CHARS` (line 9). -/
def invalidSheetChars : List Char := ['[', ']', '*', '/', '?', ':', '\\']

/-- `re.sub(INVALID_SHEET_CHARS, "-", s)`: replace each illegal character
with a dash. -/
def replaceInvalid (s : String) : String :=
  ⟨s.data.map (fun c => if c ∈ invalidSheetChars then '-' else c)⟩

/-- `s.strip("'")`. -/
def stripApos (s : String) : String :=
  ⟨((s.data.dropWhile (fun c => c = Char.ofNat 39)).reverse.dropWhile
    (fun c => c = Char.ofNat 39)).reverse⟩

/-- Python `l[:k]` with a possibly negative bound. -/
def pySlice (l : List Char) (k : Int) : List Char :=
  if 0 ≤ k then l.take k.toNat else l.take (l.length - (-k).toNat)

/-- `f" ({i})"`. -/
def numSuffix (i : Nat) : String :=
  " (" ++ Nat.repr i ++ ")"

/-- `base_title[: 31 - len(suffix)] + suffix` (line 24). -/
def candidateTitle (base : String) (i : Nat) : String :=
  ⟨pySlice base.data ((31 : Int) - (numSuffix i).data.length) ++ (numSuffix i).data⟩

/-- The `while True` search of `make_unique_title` (lines 21-28), fuelled;
`none` stands for exhausting the fuel. -/
def makeUniqueTitleAux (base : String) (existing : List String) :
    Nat → Nat → Option String
  | 0, _ => none
  | fuel + 1, i =>
    if candidateTitle base i ∈ existing then
      makeUniqueTitleAux base existing fuel (i + 1)
    else some (candidateTitle base i)

/-- `make_unique_title` (lines 11-28); `base_title or "Sheet"` falls back
on an empty base. -/
def makeUniqueTitle (base : String) (existing : List String) (fuel : Nat) :
    Option String :=
  if (if base.data.isEmpty then "Sheet" else base) ∈ existing then
    makeUniqueTitleAux base existing fuel 2
  else some (if base.data.isEmpty then "Sheet" else base)

/-- `sanitize_sheet_title` (lines 30-42): strip, replace illegal
characters, strip apostrophes, trim to 31 characters (or fall back to
`"Sheet"`), then make unique. -/
def sanitizeSheetTitle (name : String) (existing : List String) (fuel : Nat) :
    Option String :=
  makeUniqueTitle
    (if (stripApos (replaceInvalid (pyStrip name))).data.isEmpty then "Sheet"
     else ⟨(stripApos (replaceInvalid (pyStrip name))).data.take 31⟩)
    existing fuel

/-- The per-store loop (lines 163-166), threading the `existing_titles`
set through successive `sanitize_sheet_title` calls. -/
def assignTitles (fuel : Nat) : List String → List String → Option (List String)
  | [], _ => some []
  | n :: rest, existing =>
    match sanitizeSheetTitle n existing fuel with
    | none => none
    | some t => (assignTitles fuel rest (existing ++ [t])).map (t :: ·)

end CaseInventory

namespace CaseInventory

theorem headersGo_eq (l : List (Option String × Option String)) :
    ∀ i prev seen, headersGo l i prev seen = dedupAll seen (candGo l i prev) := by
  induction l with
  | nil => intro i prev seen; rfl
  | cons p rest ih =>
    intro i prev seen
    obtain ⟨h, s⟩ := p
    simp only [headersGo, candGo, dedupAll]
    rw [ih]

/-! #### Decimal rendering: `Nat.repr` is injective

`f"{header}_{n}"` renders the counter with `Nat.repr`; distinctness of the
suffixed names needs injectivity of that rendering. -/

/-- The digits of `n` in base 10, most significant first (the recursion
`Nat.toDigitsCore` implements with fuel). -/
def decDigits (n : Nat) : List Char :=
  if h : n / 10 = 0 then [Nat.digitChar (n % 10)]
  else decDigits (n / 10) ++ [Nat.digitChar (n % 10)]
decreasing_by
  exact Nat.div_lt_self (Nat.pos_of_ne_zero (fun h0 => h (by simp [h0]))) (by decide)

theorem decDigits_lo {n : Nat} (h : n / 10 = 0) :
    decDigits n = [Nat.digitChar (n % 10)] := by
  conv_lhs => rw [decDigits]
  exact dif_pos h

theorem decDigits_hi {n : Nat} (h : ¬ n / 10 = 0) :
    decDigits n = decDigits (n / 10) ++ [Nat.digitChar (n % 10)] := by
  conv_lhs => rw [decDigits]
  exact dif_neg h

theorem toDigitsCore_eq_decDigits (fuel : Nat) :
    ∀ (n : Nat) (acc : List Char), n < fuel →
      Nat.toDigitsCore 10 fuel n acc = decDigits n ++ acc := by
  induction fuel with
  | zero => intro n acc h; omega
  | succ f ih =>
    intro n acc h
    rw [Nat.toDigitsCore]
    by_cases h0 : n / 10 = 0
    · rw [if_pos h0, decDigits_lo h0]
      rfl
    · have hn : 0 < n := Nat.pos_of_ne_zero (fun hz => h0 (by simp [hz]))
      have hlt : n / 10 < f := by
        have := Nat.div_lt_self hn (by decide : 1 < 10)
        omega
      rw [if_neg h0, ih (n / 10) _ hlt, decDigits_hi h0, List.append_assoc]
      rfl

theorem natRepr_eq_decDigits (n : Nat) : Nat.repr n = ⟨decDigits n⟩ := by
  show (Nat.toDigits 10 n).asString = _
  rw [Nat.toDigits, toDigitsCore_eq_decDigits (n + 1) n [] (by omega),
    List.append_nil]
  rfl

/-- Value of a most-significant-first decimal digit string. -/
def decVal : List Char → Nat
  | [] => 0
  | c :: cs => (c.toNat - 48) * 10 ^ cs.length + decVal cs

theorem decVal_append_digit (l : List Char) (c : Char) :
    decVal (l ++ [c]) = 10 * decVal l + (c.toNat - 48) := by
  induction l with
  | nil => simp [decVal]
  | cons x xs ih =>
    show (x.toNat - 48) * 10 ^ (xs ++ [c]).length + decVal (xs ++ [c])
        = 10 * ((x.toNat - 48) * 10 ^ xs.length + decVal xs) + (c.toNat - 48)
    rw [ih, List.length_append, List.length_singleton]
    ring

theorem digitChar_val : ∀ d, d < 10 → (Nat.digitChar d).toNat - 48 = d := by
  decide

theorem decVal_decDigits (n : Nat) : decVal (decDigits n) = n := by
  induction n using Nat.strong_induction_on with
  | _ n ih =>
    by_cases h : n / 10 = 0
    · rw [decDigits_lo h]
      have hd := digitChar_val (n % 10) (Nat.mod_lt _ (by decide))
      simp [decVal]
      omega
    · have hn : 0 < n := Nat.pos_of_ne_zero (fun hz => h (by simp [hz]))
      rw [decDigits_hi h, decVal_append_digit,
        ih (n / 10) (Nat.div_lt_self hn (by decide)),
        digitChar_val (n % 10) (Nat.mod_lt _ (by decide))]
      omega

theorem natRepr_inj {m n : Nat} (h : Nat.repr m = Nat.repr n) : m = n := by
  rw [natRepr_eq_decDigits, natRepr_eq_decDigits] at h
  have hd : decDigits m = decDigits n := congrArg String.data h
  have := congrArg decVal hd
  rwa [decVal_decDigits, decVal_decDigits] at this

/-! #### Splitting at the first underscore -/

theorem append_underscore_inj :
    ∀ {a : List Char} {b s t : List Char}, '_' ∉ a → '_' ∉ b →
      a ++ '_' :: s = b ++ '_' :: t → a = b ∧ s = t := by
  intro a
  induction a with
  | nil =>
    intro b s t _ hb h
    cases b with
    | nil => simpa using h
    | cons x xs =>
      injection h with h1 _
      exact absurd (h1 ▸ List.mem_cons_self x xs) hb
  | cons y ys ih =>
    intro b s t ha hb h
    cases b with
    | nil =>
      injection h with h1 _
      exact absurd (h1 ▸ List.mem_cons_self y ys) ha
    | cons x xs =>
      injection h with h1 h2
      have hys : '_' ∉ ys := fun hm => ha (List.mem_cons_of_mem y hm)
      have hxs : '_' ∉ xs := fun hm => hb (List.mem_cons_of_mem x hm)
      obtain ⟨e1, e2⟩ := ih hys hxs h2
      exact ⟨by rw [h1, e1], e2⟩

theorem suffix_data (s t : String) :
    (s ++ "_" ++ t).data = s.data ++ '_' :: t.data := by
  rw [String.data_append, String.data_append]
  simp [List.append_assoc]

theorem underscore_mem_suffix (s t : String) : '_' ∈ (s ++ "_" ++ t).data := by
  rw [suffix_data]
  exact List.mem_append_right _ (List.mem_cons_self _ _)

theorem suffixed_eq_iff {a b : String} {m n : Nat} (ha : '_' ∉ a.data)
    (hb : '_' ∉ b.data) (h : a ++ "_" ++ Nat.repr m = b ++ "_" ++ Nat.repr n) :
    a = b ∧ m = n := by
  have hd := congrArg String.data h
  rw [suffix_data, suffix_data] at hd
  obtain ⟨h1, h2⟩ := append_underscore_inj ha hb hd
  exact ⟨String.ext h1, natRepr_inj (String.ext h2)⟩

/-! #### Freshness of deduplicated names -/

/-- Names "used up" by the `seen_headers` state: every key, and every
suffixed form `key_k` for `1 ≤ k ≤ counter`. -/
def usedName (seen : List (String × Nat)) (x : String) : Prop :=
  (∃ p ∈ seen, p.1 = x) ∨
  (∃ p ∈ seen, ∃ k, 1 ≤ k ∧ k ≤ p.2 ∧ x = p.1 ++ "_" ++ Nat.repr k)

/-- Well-formedness of the `seen_headers` state: keys are distinct and
underscore-free. -/
def SeenOK (seen : List (String × Nat)) : Prop :=
  (seen.map Prod.fst).Nodup ∧ ∀ p ∈ seen, '_' ∉ p.1.data

theorem lookupSeen_none {c : String} :
    ∀ {seen : List (String × Nat)}, lookupSeen c seen = none →
      ∀ p ∈ seen, p.1 ≠ c := by
  intro seen
  induction seen with
  | nil => intro _ p hp; cases hp
  | cons q rest ih =>
    intro h p hp
    rw [lookupSeen] at h
    by_cases hq : q.1 = c
    · rw [if_pos hq] at h; cases h
    · rw [if_neg hq] at h
      rcases List.mem_cons.mp hp with rfl | hmem
      · exact hq
      · exact ih h p hmem

theorem lookupSeen_some {c : String} {cnt : Nat} :
    ∀ {seen : List (String × Nat)}, lookupSeen c seen = some cnt →
      (seen.map Prod.fst).Nodup → ∀ p ∈ seen, p.1 = c → p.2 = cnt := by
  intro seen
  induction seen with
  | nil => intro h; cases h
  | cons q rest ih =>
    intro h hnd p hp hpc
    rw [lookupSeen] at h
    have hnd1 : (rest.map Prod.fst).Nodup := (List.nodup_cons.mp hnd).2
    by_cases hq : q.1 = c
    · rw [if_pos hq] at h
      injection h with h
      rcases List.mem_cons.mp hp with rfl | hmem
      · exact h
      · have hmm : q.1 ∈ rest.map Prod.fst := by
          rw [hq, ← hpc]
          exact List.mem_map_of_mem Prod.fst hmem
        exact absurd hmm (List.nodup_cons.mp hnd).1
    · rw [if_neg hq] at h
      rcases List.mem_cons.mp hp with rfl | hmem
      · exact absurd hpc hq
      · exact ih h hnd1 p hmem hpc

theorem lookupSeen_some_mem {c : String} {cnt : Nat} :
    ∀ {seen : List (String × Nat)}, lookupSeen c seen = some cnt →
      (c, cnt) ∈ seen := by
  intro seen
  induction seen with
  | nil => intro h; cases h
  | cons q rest ih =>
    intro h
    rw [lookupSeen] at h
    by_cases hq : q.1 = c
    · rw [if_pos hq] at h
      injection h with h
      have : q = (c, cnt) := by
        obtain ⟨q1, q2⟩ := q
        rw [show q1 = c from hq, show q2 = cnt from h]
      rw [← this]
      exact List.mem_cons_self q rest
    · rw [if_neg hq] at h
      exact List.mem_cons_of_mem _ (ih h)

theorem dedupStep_fresh_new {seen : List (String × Nat)} {c : String}
    (hl : lookupSeen c seen = none) (hc : '_' ∉ c.data) : ¬ usedName seen c := by
  rintro (⟨p, hp, hpc⟩ | ⟨p, hp, k, hk1, hk2, hx⟩)
  · exact lookupSeen_none hl p hp hpc
  · exact hc (by rw [hx]; exact underscore_mem_suffix p.1 (Nat.repr k))

theorem dedupStep_fresh_suffix {seen : List (String × Nat)} {c : String} {cnt : Nat}
    (hl : lookupSeen c seen = some cnt) (hc : '_' ∉ c.data) (hok : SeenOK seen) :
    ¬ usedName seen (c ++ "_" ++ Nat.repr (cnt + 1)) := by
  rintro (⟨p, hp, hpc⟩ | ⟨p, hp, k, hk1, hk2, hx⟩)
  · exact (hok.2 p hp) (by rw [hpc]; exact underscore_mem_suffix c (Nat.repr (cnt + 1)))
  · obtain ⟨hb, hkeq⟩ := suffixed_eq_iff hc (hok.2 p hp) hx
    have hcnt : p.2 = cnt := lookupSeen_some hl hok.1 p hp hb.symm
    omega

theorem usedName_append {seen : List (String × Nat)} {c x : String} :
    usedName (seen ++ [(c, 0)]) x ↔ usedName seen x ∨ x = c := by
  unfold usedName
  constructor
  · rintro (⟨p, hp, hpc⟩ | ⟨p, hp, k, h1, h2, hx⟩)
    · rcases List.mem_append.mp hp with hm | hm
      · exact Or.inl (Or.inl ⟨p, hm, hpc⟩)
      · rw [List.mem_singleton.mp hm] at hpc
        exact Or.inr hpc.symm
    · rcases List.mem_append.mp hp with hm | hm
      · exact Or.inl (Or.inr ⟨p, hm, k, h1, h2, hx⟩)
      · rw [List.mem_singleton.mp hm] at h2
        omega
  · rintro ((⟨p, hp, hpc⟩ | ⟨p, hp, k, h1, h2, hx⟩) | rfl)
    · exact Or.inl ⟨p, List.mem_append_left _ hp, hpc⟩
    · exact Or.inr ⟨p, List.mem_append_left _ hp, k, h1, h2, hx⟩
    · exact Or.inl ⟨(x, 0), List.mem_append_right _ (List.mem_cons_self _ _), rfl⟩

theorem updateSeen_fst {c : String} {v : Nat} {p : String × Nat} :
    ((if p.1 = c then (c, v) else p) : String × Nat).1 = p.1 := by
  by_cases h : p.1 = c <;> simp [h]

theorem usedName_update {seen : List (String × Nat)} {c x : String} {cnt : Nat}
    (hok : SeenOK seen) (hl : lookupSeen c seen = some cnt) :
    usedName (updateSeen c (cnt + 1) seen) x ↔
      usedName seen x ∨ x = c ++ "_" ++ Nat.repr (cnt + 1) := by
  unfold usedName updateSeen
  constructor
  · rintro (⟨q, hq, hqx⟩ | ⟨q, hq, k, h1, h2, hx⟩)
    · obtain ⟨p, hp, rfl⟩ := List.mem_map.mp hq
      rw [updateSeen_fst] at hqx
      exact Or.inl (Or.inl ⟨p, hp, hqx⟩)
    · obtain ⟨p, hp, rfl⟩ := List.mem_map.mp hq
      rw [updateSeen_fst] at hx
      by_cases hpc : p.1 = c
      · have hcnt : p.2 = cnt := lookupSeen_some hl hok.1 p hp hpc
        have h2q : k ≤ cnt + 1 := by
          have : ((if p.1 = c then (c, cnt + 1) else p) : String × Nat).2 = cnt + 1 := by
            simp [hpc]
          omega
        rcases Nat.lt_or_ge k (cnt + 1) with hk | hk
        · exact Or.inl (Or.inr ⟨p, hp, k, h1, by omega, hx⟩)
        · have : k = cnt + 1 := by omega
          rw [this, hpc] at hx
          exact Or.inr hx
      · have : ((if p.1 = c then (c, cnt + 1) else p) : String × Nat).2 = p.2 := by
          simp [hpc]
        exact Or.inl (Or.inr ⟨p, hp, k, h1, by omega, hx⟩)
  · rintro ((⟨p, hp, hpx⟩ | ⟨p, hp, k, h1, h2, hx⟩) | rfl)
    · refine Or.inl ⟨if p.1 = c then (c, cnt + 1) else p, List.mem_map_of_mem _ hp, ?_⟩
      rw [updateSeen_fst]
      exact hpx
    · refine Or.inr ⟨if p.1 = c then (c, cnt + 1) else p, List.mem_map_of_mem _ hp,
        k, h1, ?_, ?_⟩
      · by_cases hpc : p.1 = c
        · have hcnt : p.2 = cnt := lookupSeen_some hl hok.1 p hp hpc
          simp only [hpc, if_true]
          omega
        · simp only [hpc, if_false]
          omega
      · rw [updateSeen_fst]
        exact hx
    · exact Or.inr ⟨(c, cnt + 1),
        List.mem_map.mpr ⟨(c, cnt), lookupSeen_some_mem hl, by simp⟩,
        cnt + 1, by omega, by omega, rfl⟩

theorem seenOK_append {seen : List (String × Nat)} {c : String} (hok : SeenOK seen)
    (hl : lookupSeen c seen = none) (hc : '_' ∉ c.data) :
    SeenOK (seen ++ [(c, 0)]) := by
  constructor
  · rw [List.map_append]
    refine List.Nodup.append hok.1 (List.nodup_singleton c) ?_
    intro a ha hb
    obtain ⟨p, hp, rfl⟩ := List.mem_map.mp ha
    exact lookupSeen_none hl p hp (List.mem_singleton.mp hb)
  · intro p hp
    rcases List.mem_append.mp hp with hm | hm
    · exact hok.2 p hm
    · rw [List.mem_singleton.mp hm]
      exact hc

theorem seenOK_update {seen : List (String × Nat)} {c : String} {v : Nat}
    (hok : SeenOK seen) : SeenOK (updateSeen c v seen) := by
  have hkeys : (updateSeen c v seen).map Prod.fst = seen.map Prod.fst := by
    unfold updateSeen
    rw [List.map_map]
    apply List.map_congr_left
    intro p _
    exact updateSeen_fst
  constructor
  · rw [hkeys]
    exact hok.1
  · intro p hp
    obtain ⟨q, hq, rfl⟩ := List.mem_map.mp hp
    rw [updateSeen_fst]
    exact hok.2 q hq

theorem dedupAll_fresh : ∀ (cands : List String) (seen : List (String × Nat)),
    (∀ c ∈ cands, '_' ∉ c.data) → SeenOK seen →
    (dedupAll seen cands).Nodup ∧ ∀ x ∈ dedupAll seen cands, ¬ usedName seen x := by
  intro cands
  induction cands with
  | nil =>
    intro seen _ _
    exact ⟨List.nodup_nil, by intro x hx; cases hx⟩
  | cons c rest ih =>
    intro seen hcs hok
    have hc : '_' ∉ c.data := hcs c (List.mem_cons_self _ _)
    have hrest : ∀ x ∈ rest, '_' ∉ x.data :=
      fun x hx => hcs x (List.mem_cons_of_mem _ hx)
    rw [dedupAll]
    match hl : lookupSeen c seen with
    | none =>
      simp only [dedupStep, hl]
      obtain ⟨hnd, hfr⟩ := ih (seen ++ [(c, 0)]) hrest (seenOK_append hok hl hc)
      constructor
      · refine List.nodup_cons.mpr ⟨?_, hnd⟩
        intro hmem
        exact hfr c hmem (usedName_append.mpr (Or.inr rfl))
      · intro x hx
        rcases List.mem_cons.mp hx with rfl | hmem
        · exact dedupStep_fresh_new hl hc
        · exact fun hu => hfr x hmem (usedName_append.mpr (Or.inl hu))
    | some cnt =>
      simp only [dedupStep, hl]
      obtain ⟨hnd, hfr⟩ := ih (updateSeen c (cnt + 1) seen) hrest
        (seenOK_update hok)
      constructor
      · refine List.nodup_cons.mpr ⟨?_, hnd⟩
        intro hmem
        exact hfr _ hmem ((usedName_update hok hl).mpr (Or.inr rfl))
      · intro x hx
        rcases List.mem_cons.mp hx with rfl | hmem
        · exact dedupStep_fresh_suffix hl hc hok
        · exact fun hu => hfr x hmem ((usedName_update hok hl).mpr (Or.inl hu))

theorem ne_of_data_head {s t : String} {c d : Char} (hs : s.data.head? = some c)
    (ht : t.data.head? = some d) (hcd : c ≠ d) : s ≠ t := by
  intro h
  rw [h, ht] at hs
  exact hcd (Option.some.inj hs.symm)

theorem unnamed_ne_appt (i : Nat) : ("Unnamed_" ++ Nat.repr i) ≠ "Scheduled APPT" := by
  refine ne_of_data_head (c := 'U') (d := 'S') ?_ ?_ (by decide)
  · rw [String.data_append]
    rfl
  · rfl

/-- C4 counterexample: with a null primary cell after `Scheduled APPT` and a
subheader reading `Date`, the code emits the synthetic `Unnamed_1`, not the
`Scheduled Date` the claim promises (the date split only exists in the
non-null branch). -/
theorem merged_appt_date_goes_unnamed :
    processHeaders [some "Scheduled APPT", none] [none, some "Date"]
      = ["Scheduled APPT", "Unnamed_1"] ∧
    "Scheduled Date" ∉ processHeaders [some "Scheduled APPT", none] [none, some "Date"] := by
  exact ⟨by decide, by decide⟩

/-- C4 amended: for a null primary cell whose last seen primary is
`Scheduled APPT`, a time-matching subheader gives `Scheduled Time` and any
other subheader (a date-matching one included) gives `Unnamed_<i>`; the
date split applies only when the primary cell itself is `Scheduled APPT`. -/
theorem merged_appt_rule (i : Nat) (sub : Option String) :
    (candidateName (some "Scheduled APPT") i none sub).1
      = (if timeMatch sub then "Scheduled Time" else "Unnamed_" ++ Nat.repr i) ∧
    ∀ (prev : Option String) (h0 : String), pyStrip h0 = "Scheduled APPT" →
      (candidateName prev i (some h0) sub).1
        = (if dateMatch sub then "Scheduled Date"
           else if timeMatch sub then "Scheduled Time" else "Scheduled APPT") := by
  constructor
  · cases htm : timeMatch sub with
    | true => simp [candidateName, htm, apptSplit]
    | false => simp [candidateName, htm, apptSplit, unnamed_ne_appt i]
  · intro prev h0 hstrip
    simp only [candidateName, hstrip, apptSplit, if_pos rfl]
    cases hdm : dateMatch sub with
    | true => simp [hdm]
    | false =>
      cases htm : timeMatch sub with
      | true => simp [hdm, htm]
      | false => simp [hdm, htm]

/-- Witness for `merged_appt_rule` at concrete subheaders. -/
theorem merged_appt_rule_witness :
    (candidateName (some "Scheduled APPT") 1 none (some "Date")).1
      = "Unnamed_1" ∧
    (candidateName (some "x") 0 (some "Scheduled APPT") (some "Date")).1
      = "Scheduled Date" := by
  constructor
  · rw [(merged_appt_rule 1 (some "Date")).1]
    decide
  · rw [(merged_appt_rule 0 (some "Date")).2 (some "x") "Scheduled APPT"
      (by decide)]
    decide

/-- C5 counterexample: a header cell that literally equals a generated
suffixed name collides with it, so canonical names are not always pairwise
distinct; the same happens with a synthetic `Unnamed_<i>` name. -/
theorem header_dedup_collision :
    processHeaders [some "Foo", some "Foo", some "Foo_1"] [none, none, none]
      = ["Foo", "Foo_1", "Foo_1"] ∧
    ¬ (processHeaders [some "Foo", some "Foo", some "Foo_1"] [none, none, none]).Nodup ∧
    processHeaders [some "Unnamed", none, some "Unnamed"] [none, none, none]
      = ["Unnamed", "Unnamed_1", "Unnamed_1"] ∧
    ¬ (processHeaders [some "Unnamed", none, some "Unnamed"] [none, none, none]).Nodup := by
  exact ⟨by decide, by decide, by decide, by decide⟩

/-- C5 amended: canonical names are pairwise distinct provided no candidate
name contains an underscore (this rules out header cells that literally
equal a generated suffixed name, and synthetic `Unnamed_<i>` placeholders,
which the counterexample shows can collide); the dedup example
`["Foo","Foo","Foo"] ↦ ["Foo","Foo_1","Foo_2"]` holds. -/
theorem header_names_nodup (hdrs subs : List (Option String))
    (h : ∀ c ∈ candGo (hdrs.zip subs) 0 none, '_' ∉ c.data) :
    (processHeaders hdrs subs).Nodup ∧
    processHeaders [some "Foo", some "Foo", some "Foo"] [none, none, none]
      = ["Foo", "Foo_1", "Foo_2"] := by
  constructor
  · rw [processHeaders, headersGo_eq]
    refine (dedupAll_fresh _ [] h ?_).1
    exact ⟨List.nodup_nil, by intro p hp; cases hp⟩
  · decide

/-- Witness for `header_names_nodup` at a concrete header row. -/
theorem header_names_nodup_witness :
    (∀ c ∈ candGo ([some "A", some "B", some "A"].zip
        ([none, none, none] : List (Option String))) 0 none, '_' ∉ c.data) ∧
    (processHeaders [some "A", some "B", some "A"] [none, none, none]).Nodup := by
  refine ⟨by decide, ?_⟩
  exact (header_names_nodup [some "A", some "B", some "A"] [none, none, none]
    (by decide)).1

/-! #### Consolidation lemmas -/

theorem mem_dedupList {x : String} : ∀ {l : List String}, x ∈ dedupList l ↔ x ∈ l := by
  intro l
  induction l with
  | nil => simp [dedupList]
  | cons c rest ih =>
    rw [dedupList]
    constructor
    · intro h
      rcases List.mem_cons.mp h with rfl | hm
      · exact List.mem_cons_self _ _
      · exact List.mem_cons_of_mem _ (ih.mp (List.mem_of_mem_filter hm))
    · intro h
      rcases List.mem_cons.mp h with rfl | hm
      · exact List.mem_cons_self _ _
      · by_cases hxc : x = c
        · rw [hxc]
          exact List.mem_cons_self _ _
        · exact List.mem_cons_of_mem _
            (List.mem_filter.mpr ⟨ih.mpr hm, by simp [hxc]⟩)

theorem mem_selectIdxs {df : DFrame} {order : List String} {j : Nat} :
    j ∈ selectIdxs df order ↔ j < df.cols.length ∧ df.cols.getD j "" ∈ order := by
  unfold selectIdxs
  rw [List.mem_flatten]
  constructor
  · rintro ⟨s, hs, hj⟩
    obtain ⟨c, hc, rfl⟩ := List.mem_map.mp hs
    have hm := List.mem_filter.mp hj
    have hr := List.mem_range.mp hm.1
    have he := of_decide_eq_true hm.2
    exact ⟨hr, he ▸ hc⟩
  · rintro ⟨hj, hmem⟩
    exact ⟨_, List.mem_map_of_mem _ hmem,
      List.mem_filter.mpr ⟨List.mem_range.mpr hj, by simp⟩⟩

theorem mem_selectCols {df : DFrame} {order : List String} {x : String} :
    x ∈ (selectCols df order).cols ↔ x ∈ order ∧ x ∈ df.cols := by
  show x ∈ (selectIdxs df order).map (fun j => df.cols.getD j "") ↔ _
  rw [List.mem_map]
  constructor
  · rintro ⟨j, hj, rfl⟩
    obtain ⟨hlt, hmem⟩ := mem_selectIdxs.mp hj
    refine ⟨hmem, ?_⟩
    rw [List.getD_eq_getElem _ _ hlt]
    exact List.getElem_mem hlt
  · rintro ⟨ho, hc⟩
    obtain ⟨j, hlt, hget⟩ := List.mem_iff_getElem.mp hc
    refine ⟨j, mem_selectIdxs.mpr ⟨hlt, ?_⟩, ?_⟩
    · rw [List.getD_eq_getElem _ _ hlt, hget]
      exact ho
    · rw [List.getD_eq_getElem _ _ hlt, hget]

theorem mem_dropAllNa {df : DFrame} {c : String} :
    c ∈ (dropAllNa df).cols ↔
      ∃ j, j < df.cols.length ∧ df.cols.getD j "" = c ∧ colKeep df j := by
  show c ∈ (keptIdxs df).map (fun j => df.cols.getD j "") ↔ _
  rw [List.mem_map]
  unfold keptIdxs
  constructor
  · rintro ⟨j, hj, rfl⟩
    have hm := List.mem_filter.mp hj
    exact ⟨j, List.mem_range.mp hm.1, rfl, hm.2⟩
  · rintro ⟨j, hlt, hget, hkeep⟩
    exact ⟨j, List.mem_filter.mpr ⟨List.mem_range.mpr hlt, hkeep⟩, hget⟩

theorem mem_concatD {dfs : List DFrame} {c : String} :
    c ∈ (concatD dfs).cols ↔ ∃ df ∈ dfs, c ∈ df.cols := by
  show c ∈ concatCols dfs ↔ _
  unfold concatCols
  rw [mem_dedupList, List.mem_flatten]
  constructor
  · rintro ⟨s, hs, hc⟩
    obtain ⟨df, hdf, rfl⟩ := List.mem_map.mp hs
    exact ⟨df, hdf, hc⟩
  · rintro ⟨df, hdf, hc⟩
    exact ⟨df.cols, List.mem_map_of_mem _ hdf, hc⟩

theorem getD_replicate_none {k n : Nat} :
    (List.replicate k (none : Option Val)).getD n none = none := by
  by_cases h : n < k
  · rw [List.getD_eq_getElem _ _ (by simpa using h), List.getElem_replicate]
  · exact List.getD_eq_default _ _ (by simpa using Nat.le_of_not_lt h)

theorem widen_cols_getD {df : DFrame} {u : List String} {j : Nat}
    (h : j < df.cols.length) :
    (widen df u).cols.getD j "" = df.cols.getD j "" :=
  List.getD_append _ _ _ _ h

theorem widen_colKeep {df : DFrame} {u : List String} {j : Nat}
    (hwf : df.WF) (h : j < df.cols.length) :
    colKeep (widen df u) j = colKeep df j := by
  unfold colKeep widen
  rw [Bool.eq_iff_iff, List.any_eq_true, List.any_eq_true]
  constructor
  · rintro ⟨r2, hr2, hs⟩
    obtain ⟨r, hr, rfl⟩ := List.mem_map.mp hr2
    refine ⟨r, hr, ?_⟩
    rwa [List.getD_append _ _ _ _ (by rw [hwf r hr]; exact h)] at hs
  · rintro ⟨r, hr, hs⟩
    refine ⟨_, List.mem_map_of_mem _ hr, ?_⟩
    rwa [List.getD_append _ _ _ _ (by rw [hwf r hr]; exact h)]

theorem widen_colKeep_pad {df : DFrame} {u : List String} {j : Nat}
    (hwf : df.WF) (h : df.cols.length ≤ j) :
    colKeep (widen df u) j = false := by
  unfold colKeep widen
  rw [List.any_eq_false]
  intro r2 hr2
  obtain ⟨r, hr, rfl⟩ := List.mem_map.mp hr2
  rw [List.getD_append_right _ _ _ _ (by rw [hwf r hr]; exact h),
    getD_replicate_none]
  simp

theorem pruned_mem {df : DFrame} {u : List String} {c : String} (hwf : df.WF) :
    c ∈ (dropAllNa (widen df u)).cols ↔
      ∃ j, j < df.cols.length ∧ df.cols.getD j "" = c ∧ colKeep df j := by
  rw [mem_dropAllNa]
  constructor
  · rintro ⟨j, hlt, hget, hkeep⟩
    by_cases hj : j < df.cols.length
    · refine ⟨j, hj, ?_, ?_⟩
      · rw [← widen_cols_getD (u := u) hj]
        exact hget
      · rw [← widen_colKeep (u := u) hwf hj]
        exact hkeep
    · rw [widen_colKeep_pad (u := u) hwf (Nat.le_of_not_lt hj)] at hkeep
      cases hkeep
  · rintro ⟨j, hj, hget, hkeep⟩
    refine ⟨j, ?_, ?_, ?_⟩
    · show j < (df.cols ++ _).length
      rw [List.length_append]
      omega
    · rw [widen_cols_getD (u := u) hj]
      exact hget
    · rw [widen_colKeep (u := u) hwf hj]
      exact hkeep

theorem fmtStage_cols (dfs : List DFrame) :
    (fmtStage dfs).cols = (concatD (prunedFrames dfs)).cols.map renameCol := rfl

/-- C6 counterexample: a column (here `Zebra`) outside the canonical
`COLUMN_ORDER` is absent from the Consolidated Table even though an input
record set holds a non-missing value under it. -/
theorem schema_union_restricted :
    ((⟨["Zebra"], [[some (Val.str "v")]]⟩ : DFrame).rows.any
      (fun r => (r.getD 0 none).isSome)) = true ∧
    "Zebra" ∉ (consolidateDataframes [⟨["Zebra"], [[some (Val.str "v")]]⟩]).cols := by
  exact ⟨by decide, by decide⟩

/-- C6 amended: a column name is present in the Consolidated Table iff it
belongs to the fixed `COLUMN_ORDER` and at least one input record set holds
a non-missing value under a column whose dedup-suffix-collapsed name is it;
record sets lacking a surviving column are widened with the missing marker,
and a column that is entirely missing in every file is absent. -/
theorem consolidated_column_presence (dfs : List DFrame) (c : String)
    (hwf : ∀ df ∈ dfs, df.WF) :
    c ∈ (consolidateDataframes dfs).cols ↔
      (c ∈ COLUMN_ORDER ∧ ∃ df ∈ dfs, ∃ j, j < df.cols.length ∧
        renameCol (df.cols.getD j "") = c ∧ colKeep df j) := by
  unfold consolidateDataframes
  rw [mem_selectCols]
  constructor
  · rintro ⟨ho, hc⟩
    have ho1 := (List.mem_filter.mp ho).1
    refine ⟨ho1, ?_⟩
    rw [fmtStage_cols] at hc
    obtain ⟨c0, hc0, rfl⟩ := List.mem_map.mp hc
    obtain ⟨pf, hpf, hcpf⟩ := mem_concatD.mp hc0
    obtain ⟨df, hdf, rfl⟩ := List.mem_map.mp hpf
    obtain ⟨j, hj, hget, hkeep⟩ := (pruned_mem (hwf df hdf)).mp hcpf
    exact ⟨df, hdf, j, hj, by rw [hget], hkeep⟩
  · rintro ⟨ho, df, hdf, j, hj, hren, hkeep⟩
    have hc : c ∈ (fmtStage dfs).cols := by
      rw [fmtStage_cols]
      refine List.mem_map.mpr ⟨df.cols.getD j "", ?_, hren⟩
      refine mem_concatD.mpr ⟨dropAllNa (widen df (unionCols dfs)),
        List.mem_map_of_mem _ hdf, ?_⟩
      exact (pruned_mem (hwf df hdf)).mpr ⟨j, hj, rfl, hkeep⟩
    exact ⟨List.mem_filter.mpr ⟨ho, by simpa⟩, hc⟩

/-- Witness for `consolidated_column_presence`: one record set with a
non-missing `Case #` value makes `Case #` a column of the result. -/
theorem consolidated_column_presence_witness :
    (∀ df ∈ [(⟨["Case #"], [[some (Val.str "x")]]⟩ : DFrame)], df.WF) ∧
    "Case #" ∈ (consolidateDataframes
      [⟨["Case #"], [[some (Val.str "x")]]⟩]).cols := by
  refine ⟨?_, ?_⟩
  · intro df hdf
    rw [List.mem_singleton.mp hdf]
    intro r hr
    rw [List.mem_singleton.mp hr]
    rfl
  · refine (consolidated_column_presence _ _ ?_).mpr
      ⟨by decide, _, List.mem_cons_self _ _, 0, by decide, by decide, by decide⟩
    intro df hdf
    rw [List.mem_singleton.mp hdf]
    intro r hr
    rw [List.mem_singleton.mp hr]
    rfl

/-- C7 counterexample: `Attention_xyz` carries an underscore that is not a
dedup suffix (dedup suffixes are `_<n>` with a decimal counter), yet
consolidation renames it to `Attention` instead of leaving it unchanged. -/
theorem rename_mangles_non_dedup :
    renameCol "Attention_xyz" = "Attention" ∧
    "Attention_xyz" ∉ (consolidateDataframes
      [⟨["Attention_xyz"], [[some (Val.str "v")]]⟩]).cols ∧
    (consolidateDataframes [⟨["Attention_xyz"], [[some (Val.str "v")]]⟩]).cols
      = ["Attention"] := by
  exact ⟨by decide, by decide, by decide⟩

theorem takeWhile_until_underscore {a : List Char} (s : List Char)
    (ha : '_' ∉ a) :
    (a ++ '_' :: s).takeWhile (fun c => decide (c ≠ '_')) = a := by
  induction a with
  | nil => simp [List.takeWhile_cons]
  | cons x xs ih =>
    have hx : x ≠ '_' := fun h => ha (h ▸ List.mem_cons_self x xs)
    simp only [List.cons_append, List.takeWhile_cons]
    rw [if_pos (decide_eq_true hx), ih (fun hm => ha (List.mem_cons_of_mem x hm))]

/-- C7 amended: during consolidation every column name containing an
underscore is truncated to the segment before its first underscore; this
collapses dedup-suffixed variants `<base>_<n>` onto the unsuffixed base
(names without an underscore are unchanged), but it equally renames
underscored names that are not dedup suffixes; when both variants carry
values, the aliased columns are all retained side by side under the base
label (no value merge occurs). -/
theorem rename_collapse (base : String) (n : Nat) (hb : '_' ∉ base.data) :
    renameCol (base ++ "_" ++ Nat.repr n) = base ∧ renameCol base = base ∧
    (consolidateDataframes [⟨["Attention", "Attention_1"],
        [[some (Val.str "a"), some (Val.str "b")]]⟩]).cols
      = ["Attention", "Attention"] ∧
    (consolidateDataframes [⟨["Attention", "Attention_1"],
        [[some (Val.str "a"), some (Val.str "b")]]⟩]).rows
      = [[some (Val.str "a"), some (Val.str "b")]] := by
  refine ⟨?_, ?_, by decide, by decide⟩
  · unfold renameCol
    rw [if_pos (by rw [suffix_data]; simp), suffix_data,
      takeWhile_until_underscore _ hb]
  · unfold renameCol
    rw [if_neg (by simpa using hb)]

/-- Witness for `rename_collapse` at a concrete base name. -/
theorem rename_collapse_witness :
    ('_' ∉ "Foo".data) ∧ renameCol ("Foo" ++ "_" ++ Nat.repr 1) = "Foo" := by
  exact ⟨by decide, (rename_collapse "Foo" 1 (by decide)).1⟩

/-! #### Exit behavior -/

/-- C9 counterexample: one file is processed successfully (its record set
is usable), yet the run fails, because the consolidated table lacks the
`Arrived @ Warehouse` column the save step dereferences unconditionally. -/
theorem run_fails_after_success :
    usableFrames [some ⟨["Case #"], [[some (Val.str "x")]]⟩] ≠ [] ∧
    mainRun 0 27 [some ⟨["Case #"], [[some (Val.str "x")]]⟩] = (1, false) := by
  exact ⟨by decide, by decide⟩

/-- C9 amended: the run raises the fatal no-data error iff zero files yield
a usable record set, and then it exits with failure and no output written;
with at least one usable file the number of skipped files is irrelevant and
the run succeeds iff the save step's unconditional column dereferences all
resolve on the consolidated table. -/
theorem run_exit_behavior (F L : Date) (results : List (Option DFrame)) :
    (processFolders results = .error .noData ↔ usableFrames results = []) ∧
    (usableFrames results = [] → mainRun F L results = (1, false)) ∧
    (usableFrames results ≠ [] →
      ((mainRun F L results).1 = 0 ↔
        ∃ out, saveBeforeWrite F L
            (consolidateDataframes (usableFrames results)) = .ok out ∧
          saveInjectFormulas out = .ok ())) := by
  refine ⟨?_, ?_, ?_⟩
  · unfold processFolders
    by_cases h : usableFrames results = []
    · simp [h]
    · simp [h]
  · intro h
    unfold mainRun processFolders
    rw [if_pos h]
  · intro h
    unfold mainRun processFolders
    rw [if_neg h]
    match hsv : saveBeforeWrite F L (consolidateDataframes (usableFrames results)) with
    | .error e =>
      constructor
      · intro h0
        simp [hsv] at h0
      · rintro ⟨out, hout, _⟩
        simp at hout
    | .ok out =>
      match hin : saveInjectFormulas out with
      | .error e =>
        constructor
        · intro h0
          simp [hsv, hin] at h0
        · rintro ⟨out2, hout2, hin2⟩
          injection hout2 with he
          rw [← he, hin] at hin2
          simp at hin2
      | .ok u =>
        constructor
        · intro _
          refine ⟨out, rfl, ?_⟩
          cases u
          exact hin
        · intro _
          simp [hsv, hin]

/-- Witness for `run_exit_behavior`: with one fully-populated usable file
the run succeeds. -/
theorem run_exit_behavior_witness :
    usableFrames [some ⟨["Arrived @ Warehouse", "Scheduled Date",
      "# Days In Storage", "Storage Charge", "Square Footage of Case",
      "Extended Price"],
      [[some (Val.date 5), some (Val.date 3), some (Val.str "f"),
        some (Val.str "c"), some (Val.str "s"), some (Val.str "e")]]⟩] ≠ [] ∧
    ∃ out, saveBeforeWrite 0 27 (consolidateDataframes (usableFrames
        [some ⟨["Arrived @ Warehouse", "Scheduled Date", "# Days In Storage",
          "Storage Charge", "Square Footage of Case", "Extended Price"],
          [[some (Val.date 5), some (Val.date 3), some (Val.str "f"),
            some (Val.str "c"), some (Val.str "s"),
            some (Val.str "e")]]⟩])) = .ok out ∧
      saveInjectFormulas out = .ok () := by
  refine ⟨by decide, ?_⟩
  exact ((run_exit_behavior 0 27 _).2.2 (by decide)).mp (by decide)

/-! #### Sheet-title lemmas -/

theorem candidateTitle_len {base : String} {i : Nat} (h : i < 10 ^ 28) :
    (candidateTitle base i).length ≤ 31 := by
  have hrep : (Nat.repr i).length ≤ 28 := Nat.repr_length i 28 (by norm_num) h
  have hdl : (Nat.repr i).data.length = (Nat.repr i).length := rfl
  have hsuf : (numSuffix i).data.length = (Nat.repr i).length + 3 := by
    unfold numSuffix
    rw [String.data_append, String.data_append, List.length_append,
      List.length_append, hdl]
    show 2 + _ + 1 = _
    omega
  show (pySlice base.data ((31 : Int) - (numSuffix i).data.length)
    ++ (numSuffix i).data).length ≤ 31
  rw [List.length_append]
  have hk : (0 : Int) ≤ 31 - (numSuffix i).data.length := by
    rw [hsuf]
    push_cast
    omega
  unfold pySlice
  rw [if_pos hk, List.length_take]
  rw [hsuf] at hk ⊢
  omega

theorem makeUniqueTitleAux_spec (base : String) (existing : List String) :
    ∀ (fuel i : Nat) (t : String),
      makeUniqueTitleAux base existing fuel i = some t →
      t ∉ existing ∧ (i + fuel ≤ 10 ^ 28 → t.length ≤ 31) := by
  intro fuel
  induction fuel with
  | zero => intro i t h; cases h
  | succ f ih =>
    intro i t h
    rw [makeUniqueTitleAux] at h
    by_cases hc : candidateTitle base i ∈ existing
    · rw [if_pos hc] at h
      obtain ⟨h1, h2⟩ := ih (i + 1) t h
      exact ⟨h1, fun hb => h2 (by omega)⟩
    · rw [if_neg hc] at h
      injection h with h
      subst h
      exact ⟨hc, fun hb => candidateTitle_len (by omega)⟩

theorem makeUniqueTitle_spec {base : String} {existing : List String}
    {fuel : Nat} {t : String} (h : makeUniqueTitle base existing fuel = some t)
    (hb : base.length ≤ 31) (hfuel : 2 + fuel ≤ 10 ^ 28) :
    t ∉ existing ∧ t.length ≤ 31 := by
  unfold makeUniqueTitle at h
  by_cases hm : (if base.data.isEmpty then "Sheet" else base) ∈ existing
  · rw [if_pos hm] at h
    obtain ⟨h1, h2⟩ := makeUniqueTitleAux_spec base existing fuel 2 t h
    exact ⟨h1, h2 (by omega)⟩
  · rw [if_neg hm] at h
    injection h with h
    subst h
    refine ⟨hm, ?_⟩
    by_cases he : base.data.isEmpty
    · rw [if_pos he]
      decide
    · rw [if_neg he]
      exact hb

theorem sanitizeBase_len (name : String) :
    (if (stripApos (replaceInvalid (pyStrip name))).data.isEmpty then "Sheet"
     else (⟨(stripApos (replaceInvalid (pyStrip name))).data.take 31⟩ :
       String)).length ≤ 31 := by
  by_cases h : (stripApos (replaceInvalid (pyStrip name))).data.isEmpty
  · rw [if_pos h]
    decide
  · rw [if_neg h]
    show ((stripApos (replaceInvalid (pyStrip name))).data.take 31).length ≤ 31
    rw [List.length_take]
    omega

theorem assignTitles_spec (fuel : Nat) :
    ∀ (names existing ts : List String),
      assignTitles fuel names existing = some ts → 2 + fuel ≤ 10 ^ 28 →
      ts.Nodup ∧ ∀ t ∈ ts, t.length ≤ 31 ∧ t ∉ existing := by
  intro names
  induction names with
  | nil =>
    intro existing ts h _
    injection h with h
    rw [← h]
    exact ⟨List.nodup_nil, by simp⟩
  | cons n rest ih =>
    intro existing ts h hfuel
    rw [assignTitles] at h
    match hs : sanitizeSheetTitle n existing fuel with
    | none =>
      rw [hs] at h
      simp at h
    | some t =>
      rw [hs] at h
      have h2 : (assignTitles fuel rest (existing ++ [t])).map
          (fun x => t :: x) = some ts := h
      match hrest : assignTitles fuel rest (existing ++ [t]) with
      | none =>
        rw [hrest] at h2
        simp at h2
      | some ts2 =>
        rw [hrest] at h2
        simp only [Option.map_some'] at h2
        injection h2 with h2
        rw [← h2]
        obtain ⟨hnd, hall⟩ := ih (existing ++ [t]) ts2 hrest hfuel
        have ht := makeUniqueTitle_spec hs (sanitizeBase_len n) hfuel
        constructor
        · refine List.nodup_cons.mpr ⟨fun hmem => ?_, hnd⟩
          exact (hall t hmem).2
            (List.mem_append_right _ (List.mem_cons_self _ _))
        · intro x hx
          rcases List.mem_cons.mp hx with rfl | hmem
          · exact ⟨ht.2, ht.1⟩
          · exact ⟨(hall x hmem).1,
              fun hex => (hall x hmem).2 (List.mem_append_left _ hex)⟩

/-- C8: sequentially assigned sheet identifiers are pairwise distinct,
each at most 31 characters, and fresh against the pre-existing sheet
names (whenever the collision search terminates within its fuel, which
covers every feasible collision count); and when a store's sanitized base
label is already taken while its `" (2)"`-suffixed form is not, the second
store gets exactly the base truncated to 27 characters plus `" (2)"`. -/
theorem sheet_titles_unique (fuel : Nat) (names existing ts : List String)
    (h : assignTitles fuel names existing = some ts)
    (hfuel : 2 + fuel ≤ 10 ^ 28) :
    (ts.Nodup ∧ ∀ t ∈ ts, t.length ≤ 31 ∧ t ∉ existing) ∧
    (∀ (base : String) (ex2 : List String) (f2 : Nat), base ∈ ex2 →
      candidateTitle base 2 ∉ ex2 → base.data.isEmpty = false →
      makeUniqueTitle base ex2 (f2 + 1) = some (candidateTitle base 2) ∧
      candidateTitle base 2
        = ⟨pySlice base.data 27 ++ (" (2)" : String).data⟩) := by
  refine ⟨assignTitles_spec fuel names existing ts h hfuel, ?_⟩
  intro base ex2 f2 hbase hc2 hne
  constructor
  · unfold makeUniqueTitle
    rw [if_pos (by rw [hne]; simpa using hbase)]
    rw [makeUniqueTitleAux, if_neg hc2]
  · unfold candidateTitle
    rw [show numSuffix 2 = " (2)" from rfl,
      show ((31 : Int) - (" (2)" : String).data.length) = 27 from by decide]

/-- Witness for `sheet_titles_unique`: two 32-character store names that
truncate to the same 31-character base get distinct identifiers, the
second one suffixed `" (2)"`. -/
theorem sheet_titles_unique_witness :
    assignTitles 5 ["AAAABBBBCCCCDDDDEEEEFFFFGGGGHHHX",
        "AAAABBBBCCCCDDDDEEEEFFFFGGGGHHHY"] []
      = some ["AAAABBBBCCCCDDDDEEEEFFFFGGGGHHH",
        "AAAABBBBCCCCDDDDEEEEFFFFGGG (2)"] ∧
    (["AAAABBBBCCCCDDDDEEEEFFFFGGGGHHH",
        "AAAABBBBCCCCDDDDEEEEFFFFGGG (2)"] : List String).Nodup ∧
    ∀ t ∈ ["AAAABBBBCCCCDDDDEEEEFFFFGGGGHHH",
        "AAAABBBBCCCCDDDDEEEEFFFFGGG (2)"],
      t.length ≤ 31 ∧ t ∉ ([] : List String) := by
  refine ⟨by decide, ?_⟩
  exact (sheet_titles_unique 5
    ["AAAABBBBCCCCDDDDEEEEFFFFGGGGHHHX", "AAAABBBBCCCCDDDDEEEEFFFFGGGGHHHY"]
    [] ["AAAABBBBCCCCDDDDEEEEFFFFGGGGHHH", "AAAABBBBCCCCDDDDEEEEFFFFGGG (2)"]
    (by decide) (by norm_num)).1

/-- C1: per-record storage-period resolution follows the claimed rule. -/
theorem resolver_rule (F L : Date) (r : InvRow) :
    ((∃ a, r.arrived = some a ∧ F ≤ a ∧ a ≤ L) →
      (resolveRow F L r).storageStarts = r.arrived) ∧
    ((¬ ∃ a, r.arrived = some a ∧ F ≤ a ∧ a ≤ L) →
      (resolveRow F L r).storageStarts = some F) ∧
    ((∃ a, r.scheduled = some a ∧ F ≤ a ∧ a ≤ L) →
      (resolveRow F L r).storageEnds = r.scheduled) ∧
    ((¬ ∃ a, r.scheduled = some a ∧ F ≤ a ∧ a ≤ L) →
      (resolveRow F L r).storageEnds = some L) := by
  refine ⟨?_, ?_, ?_, ?_⟩ <;> intro h
  · obtain ⟨a, ha, h1, h2⟩ := h
    simp [resolveRow, clampStart, ha, h1, h2]
  · match hx : r.arrived with
    | none => simp [resolveRow, clampStart, hx]
    | some a =>
      have : ¬ (F ≤ a ∧ a ≤ L) := fun hc => h ⟨a, hx, hc.1, hc.2⟩
      simp [resolveRow, clampStart, hx, this]
  · obtain ⟨a, ha, h1, h2⟩ := h
    simp [resolveRow, clampEnd, ha, h1, h2]
  · match hx : r.scheduled with
    | none => simp [resolveRow, clampEnd, hx]
    | some a =>
      have : ¬ (F ≤ a ∧ a ≤ L) := fun hc => h ⟨a, hx, hc.1, hc.2⟩
      simp [resolveRow, clampEnd, hx, this]

/-- Witness for `resolver_rule` at a concrete record and window. -/
theorem resolver_rule_witness :
    (resolveRow 0 27 ⟨some 3, some 40, none, none⟩).storageStarts = some 3 ∧
    (resolveRow 0 27 ⟨some 3, some 40, none, none⟩).storageEnds = some 27 := by
  have h := resolver_rule 0 27 ⟨some 3, some 40, none, none⟩
  have hne : ¬ ∃ a, (⟨some 3, some 40, none, none⟩ : InvRow).scheduled = some a ∧
      (0 : Date) ≤ a ∧ a ≤ 27 := by
    rintro ⟨a, ha, h1, h2⟩
    injection (show some (40 : Int) = some a from ha) with hh
    rw [← hh] at h2
    norm_num at h2
  exact ⟨h.1 ⟨3, rfl, by decide, by decide⟩, h.2.2.2 hne⟩

/-- C2: resolving an already-resolved table with the same fixed window is a
no-op, because the rule reads only the untouched source-date fields. -/
theorem resolveTable_idempotent (F L : Date) (rows : List InvRow) :
    resolveTable F L (resolveTable F L rows) = resolveTable F L rows := by
  unfold resolveTable
  rw [List.map_map]
  apply List.map_congr_left
  intro r _
  rfl

/-- C3 counterexample: a record whose `Arrived @ Warehouse` is missing is
dropped by the filter (the pandas mask is `False` on `NaT`), whereas the
claim says it is kept. -/
theorem arrived_filter_drops_null :
    arrivedKeep 0 100 none = false ∧
    filterArrived 0 100 [⟨none, none, none, none⟩] = [] := by
  constructor <;> rfl

/-- C3 amended: the filter keeps a record iff `Arrived @ Warehouse` is
non-null and strictly between the two cutoffs; consequently a record is
dropped iff the value is null or outside the open interval, and a record
equal to the lower cutoff (2000-01-01) is dropped. -/
theorem arrived_filter_rule (lower upper : Date) (x : Option Date) :
    (arrivedKeep lower upper x = true ↔
      ∃ a, x = some a ∧ lower < a ∧ a < upper) ∧
    (arrivedKeep lower upper x = false ↔
      x = none ∨ ∃ a, x = some a ∧ (a ≤ lower ∨ upper ≤ a)) ∧
    arrivedKeep lower upper (some lower) = false := by
  refine ⟨?_, ?_, ?_⟩
  · match x with
    | none => simp [arrivedKeep]
    | some a => simp [arrivedKeep]
  · match x with
    | none => simp [arrivedKeep]
    | some a =>
      simp only [arrivedKeep, Bool.and_eq_false_iff, decide_eq_false_iff_not, not_lt]
      constructor
      · rintro (h | h)
        · exact Or.inr ⟨a, rfl, Or.inl h⟩
        · exact Or.inr ⟨a, rfl, Or.inr h⟩
      · rintro (h | ⟨b, hb, h⟩)
        · exact absurd h (by simp)
        · cases hb
          exact h.imp id id
  · simp [arrivedKeep]

/-- C10: after resolution both storage dates lie inside the reference
window, and there are inputs for which the derived `# Days In Storage`
formula is negative. -/
theorem resolved_dates_in_window (F L : Date) (r : InvRow) (hFL : F ≤ L) :
    (F ≤ clampStart F L r.arrived ∧ clampStart F L r.arrived ≤ L) ∧
    (F ≤ clampEnd F L r.scheduled ∧ clampEnd F L r.scheduled ≤ L) ∧
    (resolveRow F L r).storageStarts = some (clampStart F L r.arrived) ∧
    (resolveRow F L r).storageEnds = some (clampEnd F L r.scheduled) ∧
    ∃ (F' L' : Date) (r' : InvRow), F' ≤ L' ∧
      daysInStorageFormula (clampEnd F' L' r'.scheduled)
        (clampStart F' L' r'.arrived) < 0 := by
  refine ⟨?_, ?_, rfl, rfl, 0, 27, ⟨some 5, some 3, none, none⟩, by decide, by decide⟩
  · match r.arrived with
    | none => simp [clampStart, hFL]
    | some a =>
      by_cases h : F ≤ a ∧ a ≤ L
      · simp [clampStart, h, h.1, h.2]
      · simp [clampStart, h, hFL]
  · match r.scheduled with
    | none => simp [clampEnd, hFL]
    | some a =>
      by_cases h : F ≤ a ∧ a ≤ L
      · simp [clampEnd, h, h.1, h.2]
      · simp [clampEnd, h, hFL]

/-- Witness for `resolved_dates_in_window` at a concrete window. -/
theorem resolved_dates_in_window_witness :
    (0 : Int) ≤ 27 ∧
    (0 ≤ clampStart 0 27 (some 40) ∧ clampStart 0 27 (some 40) ≤ 27) := by
  refine ⟨by decide, ?_⟩
  have h := resolved_dates_in_window 0 27 ⟨some 40, none, none, none⟩ (by decide)
  exact h.1

end CaseInventory
